import Mathlib

/-!
Verification of the vdlisp interpreter/JIT core against its specification.

The development shallowly embeds the runtime's data model and the
operations relevant to the claims:

* `Val` mirrors the NaN-boxed `vdlisp::Value` kinds (src/nanbox.hpp); the
  IEEE-754 binary64 payload of numbers is modelled by exact rationals `ℚ`
  (the runtime normalizes every NaN-region pattern to zero on construction,
  so interpreter-visible numbers are ordinary finite doubles; rounding of
  arithmetic is not modelled).
* helper accessors (`pairCar`, `pairCdr`, `requireNumber`, ...) follow
  src/helpers.hpp, the builtins and special forms follow src/core.cpp,
  symbol evaluation follows `State::eval` (src/vdlisp.cpp), the module
  cache follows src/require.hpp, and the call/JIT dispatch follows
  `State::call` (src/vdlisp.cpp).
* the `Jit` namespace embeds the lowering-supported expression subset with
  one evaluator per execution mode: `ieval` for the tree-walking
  interpreter semantics (core.cpp primitives) and `jeval` for the native
  code emitted by `JITIREmitter` (src/jit/jit_ir_emitter.cpp), where the
  IEEE NaN channel is modelled by `Option ℚ` with `none` as NaN.

Fallible C++ paths (`throw std::runtime_error(msg)`) are modelled with
`Except String`.
-/

namespace VdLisp

/-- Runtime value kinds, after `enum Type` and the NaN-box tags of
src/nanbox.hpp.  Heap payloads are embedded structurally: a `pair` carries
its `car`/`cdr` fields, strings and symbols their text.  `funcv` carries an
identity key (standing for the `FuncData*` payload pointer) together with
the observation of its `compiled_code != nullptr` flag, which is what
`Value::type_name`/`to_repr` read; `macrov`, `prim` and `cfunc` likewise
carry identity keys. -/
inductive Val where
  | nil
  | num (q : ℚ)
  | str (s : String)
  | sym (s : String)
  | pair (a b : Val)
  | funcv (id : Nat) (compiled : Bool)
  | macrov (id : Nat)
  | prim (id : String)
  | cfunc (id : String)
  deriving DecidableEq, Repr

/-- `Value::operator bool` / truthiness: only nil is falsy. -/
def Val.isNil : Val → Bool
  | .nil => true
  | _ => false

/-- `pair_car` from src/helpers.hpp: nil for any non-pair input. -/
def pairCar : Val → Val
  | .pair a _ => a
  | _ => .nil

/-- `pair_cdr` from src/helpers.hpp: nil for any non-pair input. -/
def pairCdr : Val → Val
  | .pair _ b => b
  | _ => .nil

/-- `is_pair` from src/helpers.hpp. -/
def isPair : Val → Bool
  | .pair _ _ => true
  | _ => false

/-- `Value::type_name` (src/nanbox.cpp) combined with the nil guard of the
`type_name` helper in src/helpers.hpp; the `TFUNC` case reports
`jit_func` exactly when `compiled_code` is non-null. -/
def Val.typeName : Val → String
  | .nil => "nil"
  | .pair _ _ => "pair"
  | .num _ => "number"
  | .str _ => "string"
  | .sym _ => "symbol"
  | .funcv _ c => if c then "jit_func" else "function"
  | .macrov _ => "macro"
  | .prim _ => "prim"
  | .cfunc _ => "cfunction"

/-- `require_number` from src/helpers.hpp: unwrap a number or throw. -/
def requireNumber (v : Val) (who : String) : Except String ℚ :=
  match v with
  | .num q => .ok q
  | _ => .error (who ++ ": expected number, got " ++ v.typeName)

/-- `value_equal` (src/core.cpp).  The source's leading raw-bits shortcut
(`a == b`) is subsumed here: for by-value kinds bit equality is payload
equality, for heap kinds pointer equality implies the structural equality
this recursion computes anyway. -/
def valueEqual : Val → Val → Bool
  | .num a, .num b => a = b
  | .str a, .str b => a = b
  | .sym a, .sym b => a = b
  | .pair a c, .pair b d => valueEqual a b && valueEqual c d
  | a, b => a = b

/-- The shared exact-arity check of `arith_binary`/`compare_binary`
(src/core.cpp): the argument list must have a truthy head, a truthy second
link, and nothing after the second link. -/
def twoArgCheck (args : Val) : Bool :=
  !(args.isNil) && !((pairCdr args).isNil) && (pairCdr (pairCdr args)).isNil

/-- `arith_binary` (src/core.cpp): exactly two numeric arguments, then the
operation (which itself may throw, as division by zero does). -/
def arithBinary (args : Val) (op : ℚ → ℚ → Except String ℚ) (name : String) :
    Except String Val :=
  if twoArgCheck args then
    match requireNumber (pairCar args) name with
    | .error e => .error e
    | .ok a =>
      match requireNumber (pairCar (pairCdr args)) name with
      | .error e => .error e
      | .ok b =>
        match op a b with
        | .error e => .error e
        | .ok r => .ok (.num r)
  else .error (name ++ " requires exactly two arguments")

/-- `compare_binary` (src/core.cpp).  A true comparison yields
`S.get_bound("#t", S.global)`, which under the startup binding installed by
`State::State` is the interned symbol `#t`; a false one yields nil. -/
def compareBinary (args : Val) (cmp : ℚ → ℚ → Bool) (name : String) :
    Except String Val :=
  if twoArgCheck args then
    match requireNumber (pairCar args) name with
    | .error e => .error e
    | .ok a =>
      match requireNumber (pairCar (pairCdr args)) name with
      | .error e => .error e
      | .ok b => .ok (if cmp a b then .sym "#t" else .nil)
  else .error (name ++ " requires exactly two arguments")

/-- `builtin_add` (src/core.cpp). -/
def builtinAdd (args : Val) : Except String Val :=
  arithBinary args (fun a b => .ok (a + b)) "+"

/-- `builtin_sub` (src/core.cpp). -/
def builtinSub (args : Val) : Except String Val :=
  arithBinary args (fun a b => .ok (a - b)) "-"

/-- `builtin_mul` (src/core.cpp). -/
def builtinMul (args : Val) : Except String Val :=
  arithBinary args (fun a b => .ok (a * b)) "*"

/-- `builtin_div` (src/core.cpp): its operation lambda throws on a zero
divisor before dividing. -/
def builtinDiv (args : Val) : Except String Val :=
  arithBinary args
    (fun a b => if b = 0 then .error "division by zero" else .ok (a / b)) "/"

/-- The `=` builtin (src/core.cpp): exact-arity check, then `value_equal`,
yielding the `#t` symbol or nil; it inspects kinds itself and never
requires numbers. -/
def eqBuiltin (args : Val) : Except String Val :=
  if twoArgCheck args then
    .ok (if valueEqual (pairCar args) (pairCar (pairCdr args)) then
          .sym "#t" else .nil)
  else .error "= requires exactly two arguments"

/-- The `<` builtin (src/core.cpp), for contrast with `=`. -/
def builtinLt (args : Val) : Except String Val :=
  compareBinary args (fun a b => a < b) "<"

/-- A convenient constructor for the proper two-element argument list the
evaluator passes to a binary builtin. -/
def twoArgs (a b : Val) : Val := .pair a (.pair b .nil)

end VdLisp

namespace VdLisp

/-! ## Environments (src/nanbox.hpp `Env`, src/vdlisp.cpp) -/

/-- One environment's `map` (an `unordered_map<std::string, Value>`),
modelled as an association list with unique keys; `lookupA` is `map.find`. -/
def lookupA {α : Type} : List (String × α) → String → Option α
  | [], _ => none
  | (m, v) :: rest, n => if m = n then some v else lookupA rest n

/-- `map[key] = value`: overwrite the existing entry or add a new one. -/
def insertA {α : Type} (n : String) (v : α) : List (String × α) → List (String × α)
  | [] => [(n, v)]
  | (m, w) :: rest => if m = n then (n, v) :: rest else (m, w) :: insertA n v rest

/-- An environment chain (innermost frame first), following the `parent`
pointers of `Env`. -/
def EnvC : Type := List (List (String × Val))

/-- The environment-chain walk of the `TSYMBOL` case of `State::eval`
(src/vdlisp.cpp): consult each frame's map, moving to the parent on a
miss. -/
def chainLookup : EnvC → String → Option Val
  | [], _ => none
  | f :: rest, n =>
    match lookupA f n with
    | some v => some v
    | none => chainLookup rest n

/-- The `TSYMBOL` case of `State::eval` (src/vdlisp.cpp): return the value
found by the chain walk (which may be nil), and raise an unbound-symbol
error if the walk exhausts the chain.  (The source attaches a source
location to the error when one is known; only the message is modelled.) -/
def evalSymbol (env : EnvC) (n : String) : Except String Val :=
  match chainLookup env n with
  | some v => .ok v
  | none => .error ("unbound symbol: " ++ n)

/-- Specification-side reading of "the nearest binding": flatten the chain
(innermost first) and take the first entry whose key matches. -/
def nearestBinding (env : EnvC) (n : String) : Option Val :=
  (env.flatten.find? (fun p => p.1 = n)).map (·.2)

/-! ## NaN-boxing of numbers (src/nanbox.hpp) -/

/-- `Value::kNaNMask`: sign-less exponent-all-ones prefix. -/
def kNaNMask : Nat := 0x7FF0000000000000

/-- `Value::set_number` (src/nanbox.hpp) at the level of 64-bit patterns:
store the double's bits, then squash any pattern whose exponent field is
all ones (every NaN and both infinities) to zero. -/
def setNumberBits (b : Nat) : Nat :=
  if b &&& kNaNMask = kNaNMask then 0 else b

/-- `Value::get_type`'s numeric fast path (src/nanbox.hpp): a word is a
number exactly when its bits do not carry the full NaN prefix. -/
def bitsAreNumber (b : Nat) : Bool := !(b &&& kNaNMask = kNaNMask)

/-! ## `argv` binding (src/main.cpp, `State::make_string_list`) -/

/-- `State::make_string_list(argc, argv, start)` (src/vdlisp.cpp /
vdlisp.hpp): the proper list of strings `argv[start] .. argv[argc-1]`. -/
def makeStringList (argv : List String) (start : Nat) : Val :=
  (argv.drop start).foldr (fun s acc => .pair (.str s) acc) .nil

/-- The startup binding performed by `main` (src/main.cpp):
`S.bind_global("argv", S.make_string_list(argc, argv, 1))`. -/
def argvBinding (argv : List String) : Val := makeStringList argv 1

/-! ## `bind`, the `let` primitive, and `do_list` (src/vdlisp.cpp, src/core.cpp) -/

/-- `State::bind` (src/vdlisp.cpp) restricted to its effect on the target
frame: insert under the symbol's text, or throw when the first argument is
not a symbol. -/
def bindE (symv : Val) (v : Val) (frame : List (String × Val)) :
    Except String (List (String × Val)) :=
  match symv with
  | .sym s => .ok (insertA s v frame)
  | _ => .error "bind expects a symbol"

/-- `State::do_list` (src/vdlisp.cpp), parameterized by the evaluator used
for each element: evaluate in order, return the last result (nil for an
empty body).  Bodies are proper lists in every reachable use. -/
def doListE (evalF : Val → EnvC → Except String Val) : Val → EnvC → Except String Val
  | .pair a rest, env =>
    match evalF a env with
    | .error e => .error e
    | .ok r =>
      match rest with
      | .pair _ _ => doListE evalF rest env
      | _ => .ok r
  | _, _ => .ok .nil

/-- The binding loop of the `let` primitive (src/core.cpp): take
`sym := pair_car(vars)`, advance, take `val := pair_car(vars)`, evaluate it
in the child environment (the frame built so far pushed onto the caller's
chain), `bind` it there, advance again.  `evalF` is `State::eval`. -/
def letLoop (evalF : Val → EnvC → Except String Val) :
    Val → List (String × Val) → EnvC → Except String (List (String × Val))
  | .nil, frame, _ => .ok frame
  | .pair symv rest, frame, env =>
    match evalF (pairCar rest) (frame :: env) with
    | .error e => .error e
    | .ok v =>
      match bindE symv v frame with
      | .error e => .error e
      | .ok frame1 =>
        -- continue at `pair_cdr(pair_cdr vars)`; when `rest` is not a pair
        -- that is nil, and the loop on nil stops with the frame built so far
        match rest with
        | .pair _ rest2 => letLoop evalF rest2 frame1 env
        | _ => .ok frame1
  | _, frame, env =>
    -- a non-pair, non-nil binding list: `pair_car`/`pair_cdr` degrade to
    -- nil, so one iteration evaluates nil and then `bind` rejects nil
    match evalF .nil (frame :: env) with
    | .error e => .error e
    | .ok v =>
      match bindE .nil v frame with
      | .error e => .error e
      | .ok frame1 => .ok frame1

/-- The `let` primitive (src/core.cpp): build a child environment by the
binding loop over `pair_car(args)`, then run the body
`pair_cdr(args)` there as a `do_list`. -/
def letPrim (evalF : Val → EnvC → Except String Val) (args : Val) (env : EnvC) :
    Except String Val :=
  match letLoop evalF (pairCar args) [] env with
  | .error e => .error e
  | .ok frame => doListE evalF (pairCdr args) (frame :: env)

/-! ## The `require` module cache (src/require.hpp) -/

/-- The cache discipline of the `require` builtin (src/require.hpp) for a
candidate path that opens, keyed by its canonical path `key` (candidate
generation and `std::filesystem` canonicalization are abstracted into the
key; `runBody` stands for `parse_all` + `do_list` of the file contents).
A hit returns the cached value untouched.  Otherwise the entry is first
set to nil (the in-progress marker), the body runs, and only a successful
result replaces the marker; a thrown error propagates with the marker
still in place, because the C++ exception unwinds after the
`loaded_modules[key] = Value()` store. -/
def requireCached (cache : List (String × Val)) (key : String)
    (runBody : Unit → Except String Val) :
    Except String Val × List (String × Val) :=
  match lookupA cache key with
  | some v => (.ok v, cache)
  | none =>
    let cache1 := insertA key .nil cache
    match runBody () with
    | .ok r => (.ok r, insertA key r cache1)
    | .error e => (.error e, cache1)

end VdLisp

namespace VdLisp

/-! ## Parameter binding and the call dispatcher (src/vdlisp.cpp) -/

/-- `bind_params_to_env` (src/vdlisp.cpp): walk formals and actuals in
parallel.  A bare-symbol formal (including a dotted tail) takes the whole
remaining actual list; without `fill` the walk stops when the actuals run
out; each symbol formal takes the head actual (nil when exhausted).
Actual lists are proper lists in every reachable use, so the totalized
`pairCar`/`pairCdr` agree with the source's raw pair accesses. -/
def bindParams (fill : Bool) :
    Val → Val → List (String × Val) → List (String × Val)
  | .sym s, a, out => insertA s a out
  | .pair pcar pcdr, a, out =>
    if !fill && a.isNil then out
    else
      let out1 :=
        match pcar with
        | .sym s => insertA s (pairCar a) out
        | _ => out
      bindParams fill pcdr (pairCdr a) out1
  | _, _, out => out

/-- The numeric-arguments scan at the head of the `TFUNC` case of
`State::call` (src/vdlisp.cpp): extract the raw doubles when every actual
is a number.  (An improper actual-list tail is undefined behaviour in the
source; the model treats it as non-numeric, and no reachable call site
produces one.) -/
def argsNumeric : Val → Option (List ℚ)
  | .nil => some []
  | .pair (.num q) rest =>
    match argsNumeric rest with
    | some l => some (q :: l)
    | none => none
  | _ => none

/-- The compilation fields of `FuncData` (src/nanbox.hpp) together with
the parameter and body ASTs.  `compiledCode` is the nullable native entry,
`jitFailed` the sticky failure flag. -/
structure FuncD where
  params : Val
  body : Val
  numCallCount : Nat
  compiledCode : Option Nat
  jitFailed : Bool
  deriving DecidableEq, Repr

/-- Outcome of `global_jit.compileFuncData(fd)` as observed by
`State::call`: a non-null pointer, a null pointer, or a thrown exception. -/
inductive CompileRes where
  | success (code : Nat)
  | failure
  | exn
  deriving DecidableEq, Repr

/-- Outcome of invoking a native entry across the FFI boundary: a throw,
or a returned double (`none` models an IEEE NaN return). -/
inductive NativeRes where
  | threw
  | ret (x : Option ℚ)
  deriving DecidableEq, Repr

/-- `Value::type_name` for a `TFUNC` value (src/nanbox.cpp): `jit_func`
exactly when the referenced `FuncData`'s `compiled_code` is non-null. -/
def typeNameFunc (fd : FuncD) : String :=
  if fd.compiledCode.isSome then "jit_func" else "function"

/-- `Value::to_repr` for a `TFUNC` value (src/nanbox.cpp). -/
def reprFunc (fd : FuncD) : String :=
  if fd.compiledCode.isSome then "<jit_func>" else "<function>"

/-- The hot-path heuristic of `State::call` (src/vdlisp.cpp): the bumped
numeric call count exceeds three, no compiled code, not failed. -/
def hotCond (fd1 : FuncD) : Bool :=
  decide (3 < fd1.numCallCount) && fd1.compiledCode.isNone && !fd1.jitFailed

/-- The effect of the `try { compileFuncData(fd) }` block of `State::call`
on the function record: install the returned entry, or mark `jit_failed`
on a null return or a throw. -/
def applyCompile (compile : CompileRes) (fd1 : FuncD) : FuncD :=
  match compile with
  | .success c => { fd1 with compiledCode := some c }
  | .failure => { fd1 with jitFailed := true }
  | .exn => { fd1 with jitFailed := true }

/-- The `TFUNC` case of `State::call` (src/vdlisp.cpp): the hot-path
protocol.  `compile` is the outcome `compileFuncData` would produce,
`native` the behaviour of the installed native entry on a raw argument
buffer, and `interpRun` the interpreter (`do_list` of the body in a fresh
child of the closure environment) as a function of the bound-parameter
frame.  Returns the call result, the updated `FuncData` fields, and
whether a compilation attempt was made (instrumentation for stating the
hot-path condition; it does not influence the computation). -/
def callFunc (compile : CompileRes) (native : List ℚ → NativeRes)
    (interpRun : List (String × Val) → Except String Val)
    (fd : FuncD) (args : Val) :
    Except String Val × FuncD × Bool :=
  match argsNumeric args with
  | none =>
    (interpRun (bindParams false fd.params args []), fd, false)
  | some darr =>
    let fd1 : FuncD := { fd with numCallCount := fd.numCallCount + 1 }
    let attempt : Bool := hotCond fd1
    let fd2 : FuncD := if attempt then applyCompile compile fd1 else fd1
    match fd2.compiledCode with
    | some _ =>
      match native darr with
      | .ret (some q) => (.ok (.num q), fd2, attempt)
      | .ret none =>
        (interpRun (bindParams false fd2.params args []), fd2, attempt)
      | .threw =>
        let fd3 : FuncD := { fd2 with compiledCode := none, jitFailed := true }
        (interpRun (bindParams false fd3.params args []), fd3, attempt)
    | none => (interpRun (bindParams false fd2.params args []), fd2, attempt)

/-- Iterated calls: run `callFunc` once per actual-argument list, threading
the `FuncData` state. -/
def callMany (compile : CompileRes) (native : List ℚ → NativeRes)
    (interpRun : List (String × Val) → Except String Val) :
    List Val → FuncD → FuncD
  | [], fd => fd
  | a :: rest, fd =>
    callMany compile native interpRun rest
      (callFunc compile native interpRun fd a).2.1

/-- A single-element actual list `(k)`, as produced by `eval_args` for a
call `(f k)`. -/
def oneArg (k : ℚ) : Val := .pair (.num k) .nil

end VdLisp

namespace VdLisp

/-! ## Association-list and lookup lemmas -/

theorem lookupA_insertA_self {α : Type} (n : String) (v : α) :
    ∀ l : List (String × α), lookupA (insertA n v l) n = some v := by
  intro l
  induction l with
  | nil => simp [insertA, lookupA]
  | cons hd tl ih =>
    obtain ⟨m, w⟩ := hd
    by_cases h : m = n <;> simp [insertA, lookupA, h, ih]

theorem lookupA_insertA_ne {α : Type} (n m : String) (v : α) (h : n ≠ m) :
    ∀ l : List (String × α), lookupA (insertA n v l) m = lookupA l m := by
  intro l
  induction l with
  | nil => simp [insertA, lookupA, h]
  | cons hd tl ih =>
    obtain ⟨k, w⟩ := hd
    by_cases hk : k = n
    · subst hk
      simp [insertA, lookupA, h]
    · simp [insertA, lookupA, hk, ih]

/-- `lookupA` is `find?` on the association pairs. -/
theorem lookupA_eq_find {α : Type} (n : String) :
    ∀ l : List (String × α),
      lookupA l n = (l.find? (fun p => p.1 = n)).map (·.2) := by
  intro l
  induction l with
  | nil => simp [lookupA]
  | cons hd tl ih =>
    obtain ⟨m, w⟩ := hd
    by_cases h : m = n <;> simp [lookupA, List.find?, h, ih]

/-- The chain walk of `State::eval` computes the nearest binding. -/
theorem chainLookup_eq_nearestBinding (env : EnvC) (n : String) :
    chainLookup env n = nearestBinding env n := by
  induction env with
  | nil => simp [chainLookup, nearestBinding]
  | cons f rest ih =>
    show chainLookup (f :: rest) n = nearestBinding (f :: rest) n
    rw [chainLookup]
    rw [lookupA_eq_find]
    rw [ih]
    rw [nearestBinding, nearestBinding]
    show _ = ((List.flatten (f :: rest)).find? (fun p => p.1 = n)).map (·.2)
    rw [List.flatten_cons, List.find?_append]
    cases hf : f.find? (fun p => p.1 = n) <;> simp [hf, Option.or]

end VdLisp

namespace VdLisp

/-! ## Spec-side predicates used to state the claims -/

/-- Does an `Except` carry a success? -/
def isOkE {ε α : Type} : Except ε α → Bool
  | .ok _ => true
  | .error _ => false

/-- Spec-side reading of "exactly two arguments that are both numbers". -/
def isTwoNums : Val → Bool
  | .pair (.num _) (.pair (.num _) .nil) => true
  | _ => false

/-- Spec-side reading of the `/` success precondition: two numbers with a
non-zero divisor. -/
def isDivOk : Val → Bool
  | .pair (.num _) (.pair (.num b) .nil) => !(b = 0)
  | _ => false

/-- In the model, `value_equal` is structural equality: numbers compare by
value, strings and symbols by text, pairs recursively, everything else by
identity key. -/
theorem valueEqual_eq_true_iff : ∀ a b : Val, valueEqual a b = true ↔ a = b := by
  intro a
  induction a with
  | nil => intro b; cases b <;> simp [valueEqual]
  | num q => intro b; cases b <;> simp [valueEqual]
  | str s => intro b; cases b <;> simp [valueEqual]
  | sym s => intro b; cases b <;> simp [valueEqual]
  | pair x y ihx ihy =>
    intro b
    cases b <;> simp [valueEqual, ihx, ihy]
  | funcv i c => intro b; cases b <;> simp [valueEqual]
  | macrov i => intro b; cases b <;> simp [valueEqual]
  | prim i => intro b; cases b <;> simp [valueEqual]
  | cfunc i => intro b; cases b <;> simp [valueEqual]

/-- C6: `Value::set_number` silently normalizes every bit pattern in the
reserved exponent-all-ones region (every NaN and both infinities) to the
pattern of numeric zero, so the stored value is the number 0.0; every
other pattern is stored bit-for-bit, and the stored word always reads back
as a number. -/
theorem setNumber_nan_region_normalized (b : Nat) :
    (b &&& kNaNMask = kNaNMask → setNumberBits b = 0) ∧
    (b &&& kNaNMask ≠ kNaNMask → setNumberBits b = b) ∧
    bitsAreNumber (setNumberBits b) = true := by
  refine ⟨fun h => by simp [setNumberBits, h], fun h => by simp [setNumberBits, h], ?_⟩
  by_cases h : b &&& kNaNMask = kNaNMask
  · rw [setNumberBits, if_pos h]
    decide
  · rw [setNumberBits, if_neg h]
    simp [bitsAreNumber, h]

/-- Witness for `setNumber_nan_region_normalized`: the quiet-NaN pattern
0x7FF8000000000000 is squashed to zero, the pattern 3 is kept. -/
theorem setNumber_nan_region_normalized_witness :
    setNumberBits 0x7FF8000000000000 = 0 ∧ setNumberBits 3 = 3 :=
  ⟨(setNumber_nan_region_normalized 0x7FF8000000000000).1 (by decide),
   (setNumber_nan_region_normalized 3).2.1 (by decide)⟩

/-- C4 (divergence witness): started as `vdlisp script.lisp`, the runtime
binds `argv` to the one-element string list containing the script path
itself — `make_string_list(argc, argv, 1)` starts at index 1, not 2 — so
`argv` is not the empty list the spec (and the repository README, which
says the list holds the arguments after the filename) describe. -/
theorem argv_binding_includes_script_path :
    argvBinding ["vdlisp", "script.lisp"] = .pair (.str "script.lisp") .nil ∧
    argvBinding ["vdlisp", "script.lisp"] ≠ .nil ∧
    makeStringList ["vdlisp", "script.lisp"] 2 = .nil := by
  refine ⟨rfl, by decide, rfl⟩

/-- C8: evaluating a symbol yields exactly the nearest binding in the
environment chain — including a binding whose value is nil — and raises an
unbound-symbol error precisely when no frame in the chain binds the text,
so the two cases are always distinguished. -/
theorem eval_symbol_nearest_or_unbound (env : EnvC) (n : String) (v : Val) :
    (evalSymbol env n = .ok v ↔ nearestBinding env n = some v) ∧
    (nearestBinding env n = none →
      evalSymbol env n = .error ("unbound symbol: " ++ n)) := by
  constructor
  · rw [evalSymbol, chainLookup_eq_nearestBinding]
    cases h : nearestBinding env n <;> simp [h]
  · intro h
    rw [evalSymbol, chainLookup_eq_nearestBinding, h]

/-- Witness for `eval_symbol_nearest_or_unbound`: a frame binding `x` to
nil makes `(eval x)` return nil, while looking up `y` in an empty chain
reports it unbound. -/
theorem eval_symbol_nearest_or_unbound_witness :
    evalSymbol [[("x", Val.nil)]] "x" = .ok .nil ∧
    evalSymbol [] "y" = .error ("unbound symbol: " ++ "y") :=
  ⟨(eval_symbol_nearest_or_unbound [[("x", Val.nil)]] "x" .nil).1.mpr (by rfl),
   (eval_symbol_nearest_or_unbound [] "y" .nil).2 (by rfl)⟩

/-- C10: on exactly two arguments the `=` builtin never throws; it yields
the `#t` symbol exactly when `value_equal` holds, which in turn holds
exactly for structural equality (numbers by value, strings and symbols by
text, pairs recursively, other kinds by identity), and yields nil
otherwise; the ordered comparisons, by contrast, throw on non-numeric
arguments. -/
theorem eq_builtin_structural (a b : Val) :
    isOkE (eqBuiltin (twoArgs a b)) = true ∧
    (eqBuiltin (twoArgs a b) = .ok (.sym "#t") ↔ a = b) ∧
    (a ≠ b → eqBuiltin (twoArgs a b) = .ok .nil) ∧
    (valueEqual a b = true ↔ a = b) ∧
    builtinLt (twoArgs (.str "s") (.num 1)) =
      .error ("<: expected number, got " ++ "string") := by
  have hkey := valueEqual_eq_true_iff a b
  have hred : eqBuiltin (twoArgs a b) =
      .ok (if valueEqual a b = true then .sym "#t" else .nil) := rfl
  refine ⟨?_, ?_, ?_, hkey, by rfl⟩
  · rw [hred]; rfl
  · rw [hred]
    by_cases h : valueEqual a b = true
    · rw [if_pos h]
      simp [hkey.mp h]
    · have hne : ¬ a = b := fun he => h (hkey.mpr he)
      simp [h, hne]
  · intro hne
    rw [hred]
    have h : ¬ valueEqual a b = true := fun hval => hne (hkey.mp hval)
    simp [h]

/-- Witness for `eq_builtin_structural`: `(= (1 . nil-pair) same)` is `#t`
for structurally equal fresh pairs, and `(= 1 "x")` is nil without any
error. -/
theorem eq_builtin_structural_witness :
    eqBuiltin (twoArgs (.pair (.num 1) .nil) (.pair (.num 1) .nil)) = .ok (.sym "#t") ∧
    eqBuiltin (twoArgs (.num 1) (.str "x")) = .ok .nil :=
  ⟨(eq_builtin_structural (.pair (.num 1) .nil) (.pair (.num 1) .nil)).2.1.mpr rfl,
   (eq_builtin_structural (.num 1) (.str "x")).2.2.1 (by decide)⟩

end VdLisp

namespace VdLisp

/-- `arith_binary` with a total operation succeeds exactly on a proper
two-element list of numbers. -/
theorem arithBinary_pure_isOk (f : ℚ → ℚ → ℚ) (name : String) (args : Val) :
    isOkE (arithBinary args (fun a b => .ok (f a b)) name) = isTwoNums args := by
  rcases args with _ | q | s | s | ⟨a, t⟩ | ⟨i, c⟩ | i | i | i <;> try rfl
  rcases t with _ | q2 | s2 | s2 | ⟨b, t2⟩ | ⟨i2, c2⟩ | i2 | i2 | i2 <;>
    rcases a with _ | qa | sa | sa | ⟨x, y⟩ | ⟨ia, ca⟩ | ia | ia | ia <;>
    try rfl
  all_goals
    rcases t2 with _ | q3 | s3 | s3 | ⟨z, w⟩ | ⟨i3, c3⟩ | i3 | i3 | i3 <;>
    rcases b with _ | qb | sb | sb | ⟨u, vv⟩ | ⟨ib, cb⟩ | ib | ib | ib <;>
    rfl

/-- `builtin_div` succeeds exactly on a proper two-element list of numbers
whose second element is non-zero. -/
theorem builtinDiv_isOk (args : Val) :
    isOkE (builtinDiv args) = isDivOk args := by
  rcases args with _ | q | s | s | ⟨a, t⟩ | ⟨i, c⟩ | i | i | i <;> try rfl
  rcases t with _ | q2 | s2 | s2 | ⟨b, t2⟩ | ⟨i2, c2⟩ | i2 | i2 | i2 <;>
    rcases a with _ | qa | sa | sa | ⟨x, y⟩ | ⟨ia, ca⟩ | ia | ia | ia <;>
    try rfl
  all_goals
    rcases t2 with _ | q3 | s3 | s3 | ⟨z, w⟩ | ⟨i3, c3⟩ | i3 | i3 | i3 <;>
    rcases b with _ | qb | sb | sb | ⟨u, vv⟩ | ⟨ib, cb⟩ | ib | ib | ib <;>
    try rfl
  all_goals
    by_cases h : qb = 0 <;>
      simp [builtinDiv, arithBinary, requireNumber, twoArgCheck, pairCar,
        pairCdr, Val.isNil, isOkE, isDivOk, h]

/-- C7: each of `+ - * /` succeeds exactly when applied to two numeric
arguments (`/` additionally demands a non-zero divisor, raising an error
whose text is `division by zero` on a zero one), and on success returns
the result of the corresponding arithmetic operation on the two numbers. -/
theorem arith_builtins_exact (args : Val) (a b : ℚ) :
    (isOkE (builtinAdd args) = isTwoNums args) ∧
    (isOkE (builtinSub args) = isTwoNums args) ∧
    (isOkE (builtinMul args) = isTwoNums args) ∧
    (isOkE (builtinDiv args) = isDivOk args) ∧
    (builtinAdd (twoArgs (.num a) (.num b)) = .ok (.num (a + b))) ∧
    (builtinSub (twoArgs (.num a) (.num b)) = .ok (.num (a - b))) ∧
    (builtinMul (twoArgs (.num a) (.num b)) = .ok (.num (a * b))) ∧
    (b ≠ 0 → builtinDiv (twoArgs (.num a) (.num b)) = .ok (.num (a / b))) ∧
    (builtinDiv (twoArgs (.num a) (.num 0)) = .error "division by zero") := by
  refine ⟨arithBinary_pure_isOk _ "+" args, arithBinary_pure_isOk _ "-" args,
    arithBinary_pure_isOk _ "*" args, builtinDiv_isOk args,
    rfl, rfl, rfl, ?_, rfl⟩
  intro h
  simp [builtinDiv, arithBinary, requireNumber, twoArgCheck, twoArgs,
    pairCar, pairCdr, Val.isNil, h]

/-- Witness for `arith_builtins_exact`: `(/ 6 3)` evaluates to 2. -/
theorem arith_builtins_exact_witness :
    builtinDiv (twoArgs (.num 6) (.num 3)) = .ok (.num (6 / 3)) :=
  (arith_builtins_exact .nil 6 3).2.2.2.2.2.2.2.1 (by norm_num)

end VdLisp

namespace VdLisp

/-- C5 (counterexample): the interpreter's `let` does not accept the
parenthesized-pair binding form.  For the concrete program
`(let (("s" 1)) 42)` the binding loop takes the whole pair `(s 1)` as the
binding symbol and `State::bind` rejects it. -/
theorem let_paired_form_rejected :
    letPrim (fun v _ => .ok v)
      (.pair (.pair (.pair (.sym "s") (.pair (.num 1) .nil)) .nil)
        (.pair (.num 42) .nil)) []
      = .error "bind expects a symbol" := rfl

/-- C5 (amended): the interpreter's `let` accepts only the flat binding
form.  For any symbol `s` and expression `e`, `(let ((s e)) body...)`
raises `bind expects a symbol` (the pair `(s e)` reaches `State::bind` as
the binding name), while the flat `(let (s e) body...)` binds `s` to the
value of `e` in a fresh child environment and runs the body there.
`evalF` abstracts `State::eval`; the source returns nil for a nil
expression, which `hnil` records. -/
theorem let_flat_form_only (s : String) (e body : Val) (env : EnvC) (v : Val)
    (evalF : Val → EnvC → Except String Val)
    (hnil : evalF .nil ([] :: env) = .ok .nil)
    (hv : evalF e ([] :: env) = .ok v) :
    letPrim evalF (.pair (.pair (.pair (.sym s) (.pair e .nil)) .nil) body) env
      = .error "bind expects a symbol" ∧
    letPrim evalF (.pair (.pair (.sym s) (.pair e .nil)) body) env
      = doListE evalF body ([(s, v)] :: env) := by
  constructor
  · simp only [letPrim, pairCar, pairCdr, letLoop, hnil, bindE]
  · simp only [letPrim, pairCar, pairCdr, letLoop, hv, bindE, insertA]

/-- Witness for `let_flat_form_only` at `s = x`, `e = 7`, body `(42)`. -/
theorem let_flat_form_only_witness :
    letPrim (fun v _ => .ok v)
      (.pair (.pair (.pair (.sym "x") (.pair (.num 7) .nil)) .nil)
        (.pair (.num 42) .nil)) []
      = .error "bind expects a symbol" ∧
    letPrim (fun v _ => .ok v)
      (.pair (.pair (.sym "x") (.pair (.num 7) .nil))
        (.pair (.num 42) .nil)) []
      = doListE (fun v _ => .ok v) (.pair (.num 42) .nil) ([("x", .num 7)] :: []) :=
  let_flat_form_only "x" (.num 7) (.pair (.num 42) .nil) [] (.num 7)
    (fun v _ => .ok v) rfl rfl

/-- C9: when a miss on the canonical key `key` starts a load, the cache
entry is set to nil before the module body runs; if the body raises, the
error propagates and the nil entry stays, so every later `require` of the
same canonical path returns nil from the cache without consulting the
file again (the result is the same for any `run2`); only a successful
body replaces the entry with the module's last value. -/
theorem require_cache_error_poisons (cache : List (String × Val)) (key : String)
    (run : Unit → Except String Val) (msg : String) (r : Val)
    (hmiss : lookupA cache key = none) :
    (run () = .error msg →
      requireCached cache key run = (.error msg, insertA key .nil cache) ∧
      lookupA (insertA key .nil cache) key = some .nil ∧
      ∀ run2 : Unit → Except String Val,
        requireCached (insertA key .nil cache) key run2
          = (.ok .nil, insertA key .nil cache)) ∧
    (run () = .ok r →
      requireCached cache key run = (.ok r, insertA key r (insertA key .nil cache))) := by
  constructor
  · intro herr
    refine ⟨?_, lookupA_insertA_self key .nil cache, ?_⟩
    · simp [requireCached, hmiss, herr]
    · intro run2
      simp [requireCached, lookupA_insertA_self]
  · intro hok
    simp [requireCached, hmiss, hok]

/-- Witness for `require_cache_error_poisons`: a failing module load
leaves `("m.lisp" ↦ nil)` in the cache and a later `require` of the same
key succeeds with nil even though its body would return 5. -/
theorem require_cache_error_poisons_witness :
    requireCached [] "m.lisp" (fun _ => .error "boom")
      = (.error "boom", [("m.lisp", Val.nil)]) ∧
    requireCached [("m.lisp", Val.nil)] "m.lisp" (fun _ => .ok (.num 5))
      = (.ok .nil, [("m.lisp", Val.nil)]) :=
  have h := require_cache_error_poisons [] "m.lisp"
    (fun _ => .error "boom") "boom" .nil rfl
  ⟨(h.1 rfl).1, (h.1 rfl).2.2 (fun _ => .ok (.num 5))⟩

end VdLisp

namespace VdLisp

/-- With compiled code installed and numeric actuals, `State::call`'s only
state change before the native invocation is the counter bump. -/
theorem callFunc_native_eq (fd : FuncD) (args : Val) (darr : List ℚ) (c : Nat)
    (compile : CompileRes) (native : List ℚ → NativeRes)
    (interpRun : List (String × Val) → Except String Val)
    (hcode : fd.compiledCode = some c)
    (hnum : argsNumeric args = some darr) :
    callFunc compile native interpRun fd args =
      match native darr with
      | .ret (some q) =>
        (.ok (.num q), { fd with numCallCount := fd.numCallCount + 1 }, false)
      | .ret none =>
        (interpRun (bindParams false fd.params args []),
          { fd with numCallCount := fd.numCallCount + 1 }, false)
      | .threw =>
        (interpRun (bindParams false fd.params args []),
          { fd with numCallCount := fd.numCallCount + 1,
                    compiledCode := none, jitFailed := true }, false) := by
  rw [callFunc]
  rw [hnum]
  simp only [hotCond, hcode, Option.isNone_some, Bool.and_false, Bool.false_and,
    Bool.if_false_left, Bool.not_false, if_false, Bool.false_eq_true]

/-- C2: when the native entry of a compiled function returns NaN, the call
falls back to interpreting the original body with the actuals bound to the
parameters; `compiled_code` is cleared and `jit_failed` set exactly when
the native invocation threw across the FFI boundary, so a transient NaN
return without a throw leaves the compiled code installed and the failure
flag untouched, and a later numeric call still dispatches to the native
entry. -/
theorem nan_deopt_keeps_jit (fd : FuncD) (args : Val) (darr : List ℚ) (c : Nat)
    (compile : CompileRes) (native : List ℚ → NativeRes)
    (interpRun : List (String × Val) → Except String Val)
    (hcode : fd.compiledCode = some c)
    (hnum : argsNumeric args = some darr) :
    ((callFunc compile native interpRun fd args).2.1.compiledCode
      = if native darr = .threw then none else some c) ∧
    ((callFunc compile native interpRun fd args).2.1.jitFailed
      = (fd.jitFailed || decide (native darr = .threw))) ∧
    (native darr = .ret none →
      (callFunc compile native interpRun fd args).1
        = interpRun (bindParams false fd.params args [])) ∧
    (native darr = .threw →
      (callFunc compile native interpRun fd args).1
        = interpRun (bindParams false fd.params args []) ∧
      (callFunc compile native interpRun fd args).2.1.compiledCode = none ∧
      (callFunc compile native interpRun fd args).2.1.jitFailed = true) ∧
    (native darr = .ret none →
      ∀ args2 darr2 q2, argsNumeric args2 = some darr2 →
        native darr2 = .ret (some q2) →
        (callFunc compile native interpRun
          (callFunc compile native interpRun fd args).2.1 args2).1
          = .ok (.num q2)) := by
  have hmain := callFunc_native_eq fd args darr c compile native interpRun hcode hnum
  rcases hn : native darr with _ | x
  · rw [hn] at hmain
    refine ⟨by rw [hmain]; simp [hn], by rw [hmain]; simp [hn], ?_, ?_, ?_⟩
    · intro hcontra; simp at hcontra
    · intro _; exact ⟨by rw [hmain], by rw [hmain], by rw [hmain]⟩
    · intro hcontra; simp at hcontra
  · rcases x with _ | q
    · rw [hn] at hmain
      refine ⟨by rw [hmain]; simp [hn, hcode], by rw [hmain]; simp [hn], ?_, ?_, ?_⟩
      · intro _; rw [hmain]
      · intro hcontra
        simp at hcontra
      · intro _
        intro args2 darr2 q2 hnum2 hnat2
        have hfd1 : (callFunc compile native interpRun fd args).2.1.compiledCode
            = some c := by rw [hmain]; exact hcode
        have hmain2 := callFunc_native_eq
          (callFunc compile native interpRun fd args).2.1 args2 darr2 c
          compile native interpRun hfd1 hnum2
        rw [hnat2] at hmain2
        rw [hmain2]
    · rw [hn] at hmain
      refine ⟨by rw [hmain]; simp [hn, hcode], by rw [hmain]; simp [hn], ?_, ?_, ?_⟩
      · intro hcontra
        simp at hcontra
      · intro hcontra
        simp at hcontra
      · intro hcontra
        simp at hcontra

/-- Witness for `nan_deopt_keeps_jit`: a native entry that always returns
NaN without throwing keeps `compiled_code = some 7` installed and the
interpreter fallback supplies the result. -/
theorem nan_deopt_keeps_jit_witness :
    (callFunc .failure (fun _ => .ret none) (fun _ => .ok (.num 99))
      ⟨.nil, .nil, 5, some 7, false⟩ (oneArg 2)).1 = .ok (.num 99) ∧
    (callFunc .failure (fun _ => .ret none) (fun _ => .ok (.num 99))
      ⟨.nil, .nil, 5, some 7, false⟩ (oneArg 2)).2.1.compiledCode = some 7 ∧
    (callFunc .failure (fun _ => .ret none) (fun _ => .ok (.num 99))
      ⟨.nil, .nil, 5, some 7, false⟩ (oneArg 2)).2.1.jitFailed = false :=
  have h := nan_deopt_keeps_jit ⟨.nil, .nil, 5, some 7, false⟩ (oneArg 2) [2] 7
    .failure (fun _ => .ret none) (fun _ => .ok (.num 99)) rfl rfl
  ⟨h.2.2.1 rfl, (h.1).trans rfl, (h.2.1).trans rfl⟩

end VdLisp

namespace VdLisp

/-- Spec-side reading of "every actual argument is a number". -/
def allNums : Val → Bool
  | .nil => true
  | .pair (.num _) rest => allNums rest
  | _ => false

/-- The numeric scan succeeds exactly on proper all-number lists. -/
theorem argsNumeric_isSome (args : Val) :
    (argsNumeric args).isSome = allNums args := by
  induction args with
  | nil => rfl
  | num q => rfl
  | str s => rfl
  | sym s => rfl
  | pair a rest iha ihr =>
    cases a <;> try rfl
    show (match argsNumeric rest with
      | some l => some (_ :: l) | none => none).isSome = allNums rest
    cases h : argsNumeric rest
    · rw [h] at ihr; exact ihr
    · rw [h] at ihr; exact ihr
  | funcv i c => rfl
  | macrov i => rfl
  | prim i => rfl
  | cfunc i => rfl

/-- `applyCompile` never touches the call counter. -/
theorem applyCompile_numCallCount (compile : CompileRes) (fd1 : FuncD) :
    (applyCompile compile fd1).numCallCount = fd1.numCallCount := by
  cases compile <;> rfl

/-- The conditional compile step never touches the call counter. -/
theorem hotStep_numCallCount (compile : CompileRes) (fd1 : FuncD) :
    (if hotCond fd1 = true then applyCompile compile fd1 else fd1).numCallCount
      = fd1.numCallCount := by
  split
  · exact applyCompile_numCallCount compile fd1
  · rfl

/-- C3: a call to a user function bumps `num_call_count` exactly when
every actual is a number; a compilation attempt is made exactly when such
a numeric call finds the bumped count above three with no compiled code
and `jit_failed` unset; and after five single-number calls to a fresh
function whose compilation succeeds (and whose native entry never throws),
`type` reports `jit_func` and printing shows `<jit_func>`. -/
theorem hot_path_counter_and_jit (fd : FuncD) (args : Val)
    (compile : CompileRes) (native : List ℚ → NativeRes)
    (interpRun : List (String × Val) → Except String Val)
    (params body : Val) (c : Nat) (k1 k2 k3 k4 k5 : ℚ)
    (hthrow : ∀ d, native d ≠ .threw) :
    ((callFunc compile native interpRun fd args).2.1.numCallCount
      = if allNums args then fd.numCallCount + 1 else fd.numCallCount) ∧
    ((callFunc compile native interpRun fd args).2.2
      = (allNums args && decide (3 < fd.numCallCount + 1)
          && fd.compiledCode.isNone && !fd.jitFailed)) ∧
    (typeNameFunc (callMany (.success c) native interpRun
        [oneArg k1, oneArg k2, oneArg k3, oneArg k4, oneArg k5]
        ⟨params, body, 0, none, false⟩) = "jit_func" ∧
      reprFunc (callMany (.success c) native interpRun
        [oneArg k1, oneArg k2, oneArg k3, oneArg k4, oneArg k5]
        ⟨params, body, 0, none, false⟩) = "<jit_func>") := by
  have hnums := argsNumeric_isSome args
  refine ⟨?_, ?_, ?_⟩
  · rw [callFunc]
    cases h : argsNumeric args
    · rw [h] at hnums; rw [← hnums]
      simp
    · rw [h] at hnums; rw [← hnums]
      simp only [Option.isSome_some, if_true]
      split
      · rcases native _ with _ | x
        · simp [hotStep_numCallCount]
        · rcases x with _ | q <;> simp [hotStep_numCallCount]
      · simp [hotStep_numCallCount]
  · rw [callFunc]
    cases h : argsNumeric args
    · rw [h] at hnums; rw [← hnums]
      simp
    · rw [h] at hnums; rw [← hnums]
      simp only [Option.isSome_some, Bool.true_and]
      split
      · rcases native _ with _ | x
        · simp [hotCond]
        · rcases x with _ | q <;> simp [hotCond]
      · simp [hotCond]
  · have h1 : ∀ (k : ℚ) (n : Nat), n + 1 ≤ 3 →
        (callFunc (.success c) native interpRun
          ⟨params, body, n, none, false⟩ (oneArg k)).2.1
          = ⟨params, body, n + 1, none, false⟩ := by
      intro k n hn
      have hd : decide (3 < n + 1) = false := by
        simp only [decide_eq_false_iff_not]
        omega
      simp [callFunc, argsNumeric, oneArg, hotCond, hd]
    have h4 : (callFunc (.success c) native interpRun
        ⟨params, body, 3, none, false⟩ (oneArg k4)).2.1
        = ⟨params, body, 4, some c, false⟩ := by
      rcases hn : native [k4] with _ | x
      · exact absurd hn (hthrow [k4])
      · rcases x with _ | q <;>
          simp [callFunc, argsNumeric, oneArg, hotCond, applyCompile, hn]
    have h5 : (callFunc (.success c) native interpRun
        ⟨params, body, 4, some c, false⟩ (oneArg k5)).2.1
        = ⟨params, body, 5, some c, false⟩ := by
      rcases hn : native [k5] with _ | x
      · exact absurd hn (hthrow [k5])
      · rcases x with _ | q <;>
          simp [callFunc, argsNumeric, oneArg, hotCond, hn]
    have hall : callMany (.success c) native interpRun
        [oneArg k1, oneArg k2, oneArg k3, oneArg k4, oneArg k5]
        ⟨params, body, 0, none, false⟩ = ⟨params, body, 5, some c, false⟩ := by
      rw [callMany, h1 k1 0 (by omega), callMany, h1 k2 1 (by omega),
        callMany, h1 k3 2 (by omega), callMany, h4, callMany, h5, callMany]
    rw [hall]
    exact ⟨rfl, rfl⟩

/-- Witness for `hot_path_counter_and_jit`: with a native entry that
always returns 0.0, five calls to a fresh one-parameter function flip its
reported type to `jit_func`. -/
theorem hot_path_counter_and_jit_witness :
    typeNameFunc (callMany (.success 1) (fun _ => .ret (some 0))
      (fun _ => .ok .nil) [oneArg 1, oneArg 2, oneArg 3, oneArg 4, oneArg 5]
      ⟨.pair (.sym "x") .nil, .nil, 0, none, false⟩) = "jit_func" :=
  (hot_path_counter_and_jit ⟨.nil, .nil, 0, none, false⟩ .nil .failure
    (fun _ => .ret (some 0)) (fun _ => .ok .nil)
    (.pair (.sym "x") .nil) .nil 1 1 2 3 4 5
    (fun _ h => NativeRes.noConfusion h)).2.2.1

end VdLisp

namespace VdLisp
namespace Jit

/-!
The lowering-supported expression subset and its two semantics.

`JExpr` names the forms `JITIREmitter::emitExpr` (src/jit/jit_ir_emitter.cpp)
accepts, as they appear in a user function body: numeric literals, the
symbol `#t`, other symbols, binary arithmetic and comparisons, `cond`,
`while` and `let`.  Calls to other user functions and free variables
resolved through the closure chain are outside this embedded core (the
runtime helpers `VDLISP__call_from_jit` / `VDLISP__jit_lookup_number`
re-enter the full runtime); a symbol that is neither a parameter nor a
let-local is modelled as the helper's unbound outcome, NaN.

* `ieval` is the interpreter semantics of the same forms, from the
  primitives and builtins of src/core.cpp: truthiness is non-nil (the
  number 0 included), comparisons yield the `#t` symbol or nil, `cond`
  falls through to nil, `while` returns the last body value (nil when the
  body never ran), `let` binds into one fresh child frame.  Alongside the
  value it returns a flag that stays true while every `cond`/`while` test
  value is branch-consistent between the two modes (that is, never the
  number 0, the one value the interpreter calls truthy and the emitted
  `FCmpONE x, 0.0` calls false).  The flag is instrumentation for stating
  the equivalence claim; the value component follows the source alone.
* `jeval` is the semantics of the emitted IR: every value is a double
  (`Option ℚ`, `none` for the IEEE NaN channel), `#t` is the constant 1.0,
  parameters load `args[i]`, let-locals are function-wide stack slots
  (`ensure_local` reuses one alloca per name), tests branch on ordered
  not-equal-to-zero, comparisons select 1.0/0.0 (false on NaN, as the
  ordered predicates are), `cond` fall-through contributes 0.0, division
  by zero and arithmetic on NaN stay in the NaN channel (the spec treats
  IEEE inf/NaN behaviour as out of scope, and the equivalence theorem's
  hypotheses keep executed divisions nonzero), and a `while` that never
  runs its body produces 0.0 (the continuation value the spec prescribes;
  the emitted IR leaves it undefined in that case).

Both evaluators spend one unit of fuel per step so that the simulation
can proceed by induction on fuel; `while` loops by re-entering with less
fuel.
-/

inductive AOp where
  | add | sub | mul | div
  deriving DecidableEq, Repr

inductive COp where
  | lt | gt | le | ge | eq
  deriving DecidableEq, Repr

inductive JExpr where
  | num (q : ℚ)
  | tsym
  | var (n : String)
  | arith (op : AOp) (a b : JExpr)
  | cmp (op : COp) (a b : JExpr)
  | cnd (clauses : List (JExpr × List JExpr))
  | whl (t : JExpr) (body : List JExpr)
  | lett (binds : List (String × JExpr)) (body : List JExpr)
  deriving Repr

/-- The values interpreted evaluation can produce inside the subset:
nil, a number, or the `#t` symbol (from a true comparison or the global
`#t` binding). -/
inductive IVal where
  | nil
  | num (q : ℚ)
  | tsym
  deriving DecidableEq, Repr

/-- Interpreter truthiness: only nil is falsy (`Value::operator bool`). -/
def truthyI : IVal → Bool
  | .nil => false
  | _ => true

/-- Branch consistency of a test value between the two modes: the number 0
is truthy to the interpreter but compares equal to zero in native code. -/
def consistT : IVal → Bool
  | .num q => !(q = 0)
  | _ => true

/-- The relation between an interpreter value and the double the emitted
code computes for the same expression. -/
def relB : IVal → ℚ → Bool
  | .num a, q => a = q
  | .tsym, q => q = 1
  | .nil, q => q = 0

/-- Environment-chain lookup over frames of `α`-bindings (the walk of
`lookup_number` and of the evaluator's symbol case). -/
def chainA {α : Type} : List (List (String × α)) → String → Option α
  | [], _ => none
  | fr :: rest, n =>
    match lookupA fr n with
    | some v => some v
    | none => chainA rest n

/-- Arithmetic in the interpreter: the builtins of src/core.cpp on two
numbers; division by zero throws. -/
def aopI (op : AOp) (a b : ℚ) : Except String ℚ :=
  match op with
  | .add => .ok (a + b)
  | .sub => .ok (a - b)
  | .mul => .ok (a * b)
  | .div => if b = 0 then .error "division by zero" else .ok (a / b)

/-- The comparison predicate shared by both modes. -/
def copB (op : COp) (a b : ℚ) : Bool :=
  match op with
  | .lt => a < b
  | .gt => b < a
  | .le => a ≤ b
  | .ge => b ≤ a
  | .eq => a = b

/-- Arithmetic in the emitted code: plain floating-point ops; the NaN
channel propagates, and division by zero enters it (standing for the
IEEE inf/NaN results the spec leaves out of scope). -/
def aopJ (op : AOp) : Option ℚ → Option ℚ → Option ℚ
  | some a, some b =>
    match op with
    | .add => some (a + b)
    | .sub => some (a - b)
    | .mul => some (a * b)
    | .div => if b = 0 then none else some (a / b)
  | _, _ => none

/-- Comparison in the emitted code: an ordered predicate selecting 1.0 or
0.0; ordered comparisons are false when an operand is NaN. -/
def copJ (op : COp) : Option ℚ → Option ℚ → Option ℚ
  | some a, some b => some (if copB op a b then 1 else 0)
  | _, _ => some 0

/-- Native truthiness: `FCmpONE x, 0.0` — ordered, so NaN is false. -/
def jtruthy : Option ℚ → Bool
  | none => false
  | some q => !(q = 0)

/-- `param_index` (JITIREmitter's constructor): position of a name in the
parameter list; first occurrence (the source map coincides for the
duplicate-free parameter lists the model covers). -/
def pidx : List String → String → Option Nat
  | [], _ => none
  | p :: rest, n => if p = n then some 0 else (pidx rest n).map (· + 1)

end Jit
end VdLisp

namespace VdLisp
namespace Jit

mutual

/-- Interpreter semantics of the subset (src/core.cpp primitives and
builtins), instrumented with the branch-consistency flag. -/
def ieval : Nat → JExpr → List (List (String × IVal)) →
    Except String (IVal × Bool)
  | 0, _, _ => .error "fuel"
  | f + 1, e, env =>
    match e with
    | .num q => .ok (.num q, true)
    | .tsym => .ok (.tsym, true)
    | .var n =>
      match chainA env n with
      | some v => .ok (v, true)
      | none => .error ("unbound symbol: " ++ n)
    | .arith op a b =>
      match ieval f a env with
      | .error e1 => .error e1
      | .ok (va, ba) =>
        match ieval f b env with
        | .error e1 => .error e1
        | .ok (vb, bb) =>
          match va, vb with
          | .num qa, .num qb =>
            match aopI op qa qb with
            | .error e1 => .error e1
            | .ok r => .ok (.num r, ba && bb)
          | _, _ => .error "expected number"
    | .cmp op a b =>
      match ieval f a env with
      | .error e1 => .error e1
      | .ok (va, ba) =>
        match ieval f b env with
        | .error e1 => .error e1
        | .ok (vb, bb) =>
          match va, vb with
          | .num qa, .num qb =>
            .ok (if copB op qa qb then .tsym else .nil, ba && bb)
          | _, _ => .error "expected number"
    | .cnd cls => icond f cls env
    | .whl t body => iwhile f t body env .nil true
    | .lett binds body =>
      match ibinds f binds [] env with
      | .error e1 => .error e1
      | .ok (frame, bf) =>
        match idolist f body (frame :: env) with
        | .error e1 => .error e1
        | .ok (v, bb) => .ok (v, bf && bb)

/-- The `cond` primitive: first truthy test wins, fall-through is nil. -/
def icond : Nat → List (JExpr × List JExpr) →
    List (List (String × IVal)) → Except String (IVal × Bool)
  | 0, _, _ => .error "fuel"
  | _ + 1, [], _ => .ok (.nil, true)
  | f + 1, (t, b) :: rest, env =>
    match ieval f t env with
    | .error e1 => .error e1
    | .ok (tv, bt) =>
      if truthyI tv then
        match idolist f b env with
        | .error e1 => .error e1
        | .ok (v, bb) => .ok (v, bt && consistT tv && bb)
      else
        match icond f rest env with
        | .error e1 => .error e1
        | .ok (v, bb) => .ok (v, bt && consistT tv && bb)

/-- The `while` primitive: loop while the test is truthy, returning the
last body value (`res`, initially nil). -/
def iwhile : Nat → JExpr → List JExpr → List (List (String × IVal)) →
    IVal → Bool → Except String (IVal × Bool)
  | 0, _, _, _, _, _ => .error "fuel"
  | f + 1, t, body, env, res, flg =>
    match ieval f t env with
    | .error e1 => .error e1
    | .ok (tv, bt) =>
      if truthyI tv then
        match idolist f body env with
        | .error e1 => .error e1
        | .ok (r, br) => iwhile f t body env r (flg && bt && consistT tv && br)
      else .ok (res, flg && bt && consistT tv)

/-- `State::do_list`: each expression in order, last value, nil when
empty. -/
def idolist : Nat → List JExpr → List (List (String × IVal)) →
    Except String (IVal × Bool)
  | 0, _, _ => .error "fuel"
  | _ + 1, [], _ => .ok (.nil, true)
  | f + 1, e :: rest, env =>
    match ieval f e env with
    | .error e1 => .error e1
    | .ok (v, bv) =>
      match rest with
      | [] => .ok (v, bv)
      | _ :: _ =>
        match idolist f rest env with
        | .error e1 => .error e1
        | .ok (r, br) => .ok (r, bv && br)

/-- The binding loop of the `let` primitive: evaluate each init in the
child environment built so far, then bind. -/
def ibinds : Nat → List (String × JExpr) → List (String × IVal) →
    List (List (String × IVal)) →
    Except String (List (String × IVal) × Bool)
  | 0, _, _, _ => .error "fuel"
  | _ + 1, [], frame, _ => .ok (frame, true)
  | f + 1, (n, e) :: rest, frame, env =>
    match ieval f e (frame :: env) with
    | .error e1 => .error e1
    | .ok (v, bv) =>
      match ibinds f rest (insertA n v frame) env with
      | .error e1 => .error e1
      | .ok (fr, br) => .ok (fr, bv && br)

end

mutual

/-- Semantics of the IR `JITIREmitter::emitExpr` produces, on the numeric
ABI: parameters load from the argument buffer, let-locals from their
function-wide stack slot (threaded as `loc`), unresolved symbols yield
NaN (`VDLISP__jit_lookup_number` over an empty closure chain). -/
def jeval : Nat → JExpr → List String → List ℚ →
    List (String × Option ℚ) → Except String (Option ℚ × List (String × Option ℚ))
  | 0, _, _, _, _ => .error "fuel"
  | f + 1, e, P, args, loc =>
    match e with
    | .num q => .ok (some q, loc)
    | .tsym => .ok (some 1, loc)
    | .var n =>
      match pidx P n with
      | some i => .ok (some (args.getD i 0), loc)
      | none =>
        match lookupA loc n with
        | some x => .ok (x, loc)
        | none => .ok (none, loc)
    | .arith op a b =>
      match jeval f a P args loc with
      | .error e1 => .error e1
      | .ok (xa, l1) =>
        match jeval f b P args l1 with
        | .error e1 => .error e1
        | .ok (xb, l2) => .ok (aopJ op xa xb, l2)
    | .cmp op a b =>
      match jeval f a P args loc with
      | .error e1 => .error e1
      | .ok (xa, l1) =>
        match jeval f b P args l1 with
        | .error e1 => .error e1
        | .ok (xb, l2) => .ok (copJ op xa xb, l2)
    | .cnd cls => jcond f cls P args loc
    | .whl t body => jwhile f t body P args loc (some 0)
    | .lett binds body =>
      match jbinds f binds P args loc with
      | .error e1 => .error e1
      | .ok l1 => jdolist f body P args l1

/-- `compileCond`: chained compare-to-zero-not-equal branches; a taken
clause contributes its body's last value, fall-through contributes 0.0. -/
def jcond : Nat → List (JExpr × List JExpr) → List String → List ℚ →
    List (String × Option ℚ) → Except String (Option ℚ × List (String × Option ℚ))
  | 0, _, _, _, _ => .error "fuel"
  | _ + 1, [], _, _, loc => .ok (some 0, loc)
  | f + 1, (t, b) :: rest, P, args, loc =>
    match jeval f t P args loc with
    | .error e1 => .error e1
    | .ok (tv, l1) =>
      if jtruthy tv then jdolist f b P args l1
      else jcond f rest P args l1

/-- `compileWhile`: header tests, body chains and loops back; `acc` is
the value the continuation block sees (0.0 when the body never ran). -/
def jwhile : Nat → JExpr → List JExpr → List String → List ℚ →
    List (String × Option ℚ) → Option ℚ →
    Except String (Option ℚ × List (String × Option ℚ))
  | 0, _, _, _, _, _, _ => .error "fuel"
  | f + 1, t, body, P, args, loc, acc =>
    match jeval f t P args loc with
    | .error e1 => .error e1
    | .ok (tv, l1) =>
      if jtruthy tv then
        match jdolist f body P args l1 with
        | .error e1 => .error e1
        | .ok (r, l2) => jwhile f t body P args l2 r
      else .ok (acc, l1)

/-- A linear chain of expressions; the last value, 0.0 when empty. -/
def jdolist : Nat → List JExpr → List String → List ℚ →
    List (String × Option ℚ) → Except String (Option ℚ × List (String × Option ℚ))
  | 0, _, _, _, _ => .error "fuel"
  | _ + 1, [], _, _, loc => .ok (some 0, loc)
  | f + 1, e :: rest, P, args, loc =>
    match jeval f e P args loc with
    | .error e1 => .error e1
    | .ok (x, l1) =>
      match rest with
      | [] => .ok (x, l1)
      | _ :: _ => jdolist f rest P args l1

/-- `compileLet`'s binding stores: evaluate each init, store into the
name's stack slot. -/
def jbinds : Nat → List (String × JExpr) → List String → List ℚ →
    List (String × Option ℚ) → Except String (List (String × Option ℚ))
  | 0, _, _, _, _ => .error "fuel"
  | _ + 1, [], _, _, loc => .ok loc
  | f + 1, (n, e) :: rest, P, args, loc =>
    match jeval f e P args loc with
    | .error e1 => .error e1
    | .ok (x, l1) => jbinds f rest P args (insertA n x l1)

end

end Jit
end VdLisp

namespace VdLisp
namespace Jit

/-- Scope extension performed by a `let`'s bindings, innermost name
first. -/
def extScope : List (String × JExpr) → List String → List String
  | [], S => S
  | (n, _) :: rest, S => extScope rest (n :: S)

mutual

/-- The hygiene side condition of the equivalence statement: every symbol
is a parameter or a let-local referenced inside its `let`, and every
let-bound name is fresh (not a parameter, not already in scope).  Outside
this discipline the emitter's function-wide stack slots and
parameter-before-local resolution order do not implement the
interpreter's environment chain. -/
def scopeOk (P : List String) : List String → JExpr → Bool
  | _, .num _ => true
  | _, .tsym => true
  | S, .var n => P.contains n || S.contains n
  | S, .arith _ a b => scopeOk P S a && scopeOk P S b
  | S, .cmp _ a b => scopeOk P S a && scopeOk P S b
  | S, .cnd cls => scopeOkC P S cls
  | S, .whl t body => scopeOk P S t && scopeOkL P S body
  | S, .lett binds body => scopeOkB P S binds && scopeOkL P (extScope binds S) body

def scopeOkL (P : List String) : List String → List JExpr → Bool
  | _, [] => true
  | S, e :: rest => scopeOk P S e && scopeOkL P S rest

def scopeOkC (P : List String) : List String → List (JExpr × List JExpr) → Bool
  | _, [] => true
  | S, (t, b) :: rest => scopeOk P S t && scopeOkL P S b && scopeOkC P S rest

def scopeOkB (P : List String) : List String → List (String × JExpr) → Bool
  | _, [] => true
  | S, (n, e) :: rest =>
    scopeOk P S e && !(P.contains n) && !(S.contains n) && scopeOkB P (n :: S) rest

end

/-- The activation frame `State::call` builds for a plain symbol-list
parameter list and all-numeric actuals (`bind_params_to_env`, missing
actuals stop the walk). -/
def zipFrame : List String → List ℚ → List (String × IVal)
  | p :: ps, a :: rest => (p, .num a) :: zipFrame ps rest
  | _, _ => []

/-- The simulation invariant: whatever the interpreter's chain binds is
what the emitted code reads — parameters from the argument buffer at
their index, everything else from an in-scope stack slot holding a
related non-NaN double. -/
def Inv (P : List String) (args : List ℚ) (S : List String)
    (env : List (List (String × IVal))) (loc : List (String × Option ℚ)) : Prop :=
  ∀ n v, chainA env n = some v →
    (match pidx P n with
     | some i => v = IVal.num (args.getD i 0)
     | none => S.contains n = true ∧
         ∃ q, lookupA loc n = some (some q) ∧ relB v q = true)

/-- Stack-slot agreement on a scope: the simulation lets an evaluated
subexpression write slots only for names outside the caller's scope. -/
def Agree (S : List String) (loc2 loc : List (String × Option ℚ)) : Prop :=
  ∀ m, S.contains m = true → lookupA loc2 m = lookupA loc m

theorem Agree.refl {S : List String} {loc : List (String × Option ℚ)} :
    Agree S loc loc := fun _ _ => Eq.refl _

theorem Agree.trans {S : List String} {l3 l2 l1 : List (String × Option ℚ)}
    (h2 : Agree S l3 l2) (h1 : Agree S l2 l1) : Agree S l3 l1 :=
  fun m hm => (h2 m hm).trans (h1 m hm)

/-- Restrict agreement to a smaller scope. -/
theorem Agree.mono {S T : List String} {loc2 loc : List (String × Option ℚ)}
    (hsub : ∀ m, T.contains m = true → S.contains m = true)
    (h : Agree S loc2 loc) : Agree T loc2 loc :=
  fun m hm => h m (hsub m hm)

/-- The invariant survives a slot rewrite that preserves the scope's
slots. -/
theorem Inv.of_agree {P : List String} {args : List ℚ} {S : List String}
    {env : List (List (String × IVal))} {loc loc2 : List (String × Option ℚ)}
    (hinv : Inv P args S env loc) (hag : Agree S loc2 loc) :
    Inv P args S env loc2 := by
  intro n v hn
  have h := hinv n v hn
  cases hp : pidx P n with
  | some i => rw [hp] at h; exact h
  | none =>
    rw [hp] at h
    obtain ⟨hS, q, hq, hr⟩ := h
    exact ⟨hS, q, (hag n hS).trans hq, hr⟩

/-- A related test value branches the same way in both modes once it is
branch-consistent. -/
theorem truthy_agree {tv : IVal} {q : ℚ} (hrel : relB tv q = true)
    (hcon : consistT tv = true) : truthyI tv = jtruthy (some q) := by
  cases tv with
  | nil =>
    have : q = 0 := by simpa [relB] using hrel
    simp [truthyI, jtruthy, this]
  | num a =>
    have ha : a = q := by simpa [relB] using hrel
    have : ¬ a = 0 := by simpa [consistT] using hcon
    subst ha
    simp [truthyI, jtruthy, this]
  | tsym =>
    have : q = 1 := by simpa [relB] using hrel
    simp [truthyI, jtruthy, this]

/-- A name that is not in the list has no parameter index. -/
theorem pidx_eq_none {P : List String} {n : String}
    (h : P.contains n = false) : pidx P n = none := by
  induction P with
  | nil => rfl
  | cons p rest ih =>
    simp only [List.contains_cons, Bool.or_eq_false_iff] at h
    obtain ⟨h1, h2⟩ := h
    have hp : ¬ p = n := by
      intro he; subst he; simp at h1
    simp [pidx, hp, ih h2]

/-- An empty frame is transparent to the chain walk. -/
theorem chainA_nil_frame {α : Type} (env : List (List (String × α))) (n : String) :
    chainA ([] :: env) n = chainA env n := rfl

/-- What the activation frame binds: each parameter that received an
actual is bound to that number, at its `param_index`. -/
theorem zipFrame_sound (P : List String) (args : List ℚ) (n : String) (v : IVal) :
    lookupA (zipFrame P args) n = some v →
    ∃ i, pidx P n = some i ∧ v = IVal.num (args.getD i 0) := by
  induction P generalizing args with
  | nil => intro h; simp [zipFrame, lookupA] at h
  | cons p ps ih =>
    intro h
    cases args with
    | nil => simp [zipFrame, lookupA] at h
    | cons a rest =>
      by_cases hp : p = n
      · subst hp
        simp [zipFrame, lookupA] at h
        exact ⟨0, by simp [pidx], by simp [h.symm]⟩
      · have h2 : lookupA (zipFrame ps rest) n = some v := by
          simpa [zipFrame, lookupA, hp] using h
        obtain ⟨i, hi, hv⟩ := ih rest h2
        exact ⟨i + 1, by simp [pidx, hp, hi], by simpa using hv⟩

/-- The entry invariant of a numeric call: one activation frame, no
stack slots yet. -/
theorem Inv_entry (P : List String) (args : List ℚ) :
    Inv P args [] [zipFrame P args] [] := by
  intro n v hn
  have hl : lookupA (zipFrame P args) n = some v := by
    revert hn
    simp only [chainA]
    cases h : lookupA (zipFrame P args) n
    · intro hc; cases hc
    · intro hc; cases hc; rfl
  obtain ⟨i, hi, hv⟩ := zipFrame_sound P args n v hl
  rw [hi]
  exact hv

end Jit
end VdLisp

namespace VdLisp
namespace Jit

/-- A successful, branch-consistent interpreted evaluation is matched by
the emitted code: same number (under `relB`), stack slots outside the
scope only. -/
def StmtE (f : Nat) : Prop :=
  ∀ e P args S env loc v,
    scopeOk P S e = true → Inv P args S env loc →
    ieval f e env = .ok (v, true) →
    ∃ q loc2, jeval f e P args loc = .ok (some q, loc2) ∧ relB v q = true ∧
      Agree S loc2 loc

def StmtL (f : Nat) : Prop :=
  ∀ es P args S env loc v,
    scopeOkL P S es = true → Inv P args S env loc →
    idolist f es env = .ok (v, true) →
    ∃ q loc2, jdolist f es P args loc = .ok (some q, loc2) ∧ relB v q = true ∧
      Agree S loc2 loc

def StmtC (f : Nat) : Prop :=
  ∀ cls P args S env loc v,
    scopeOkC P S cls = true → Inv P args S env loc →
    icond f cls env = .ok (v, true) →
    ∃ q loc2, jcond f cls P args loc = .ok (some q, loc2) ∧ relB v q = true ∧
      Agree S loc2 loc

def StmtW (f : Nat) : Prop :=
  ∀ t body P args S env loc res flg acc v,
    scopeOk P S t = true → scopeOkL P S body = true →
    Inv P args S env loc → relB res acc = true →
    iwhile f t body env res flg = .ok (v, true) →
    ∃ q loc2, jwhile f t body P args loc (some acc) = .ok (some q, loc2) ∧
      relB v q = true ∧ Agree S loc2 loc

def StmtB (f : Nat) : Prop :=
  ∀ binds P args S env loc frame fr,
    scopeOkB P S binds = true → Inv P args S (frame :: env) loc →
    ibinds f binds frame env = .ok (fr, true) →
    ∃ loc2, jbinds f binds P args loc = .ok loc2 ∧
      Inv P args (extScope binds S) (fr :: env) loc2 ∧ Agree S loc2 loc

/-- A `let`'s scope extension preserves membership. -/
theorem extScope_contains (binds : List (String × JExpr)) (S : List String)
    (m : String) (hm : S.contains m = true) :
    (extScope binds S).contains m = true := by
  induction binds generalizing S with
  | nil => exact hm
  | cons hd tl ih =>
    obtain ⟨n1, e1⟩ := hd
    refine ih (n1 :: S) ?_
    simp only [List.contains_cons, Bool.or_eq_true]
    exact Or.inr (by simpa using hm)

/-- Interpreter arithmetic success transfers to the emitted op. -/
theorem aop_agree {op : AOp} {qa qb r : ℚ} (h : aopI op qa qb = .ok r) :
    aopJ op (some qa) (some qb) = some r := by
  cases op with
  | add => simp [aopI] at h; simp [aopJ, h]
  | sub => simp [aopI] at h; simp [aopJ, h]
  | mul => simp [aopI] at h; simp [aopJ, h]
  | div =>
    by_cases hb : qb = 0
    · simp [aopI, hb] at h
    · simp [aopI, hb] at h
      simp [aopJ, hb, h]

/-- A comparison's symbol-or-nil result relates to its 1.0/0.0 select. -/
theorem cmp_rel (c : Bool) :
    relB (if c then IVal.tsym else IVal.nil) (if c then 1 else 0) = true := by
  cases c <;> simp [relB]

theorem stepE (f : Nat) (ihE : StmtE f) (_ihL : StmtL f) (ihC : StmtC f)
    (ihW : StmtW f) (ihB : StmtB f) (ihL : StmtL f) : StmtE (f + 1) := by
  intro e P args S env loc v hscope hinv hrun
  cases e with
  | num q =>
    simp only [ieval, Except.ok.injEq, Prod.mk.injEq] at hrun
    refine ⟨q, loc, by simp [jeval], ?_, Agree.refl⟩
    rw [← hrun.1]
    simp [relB]
  | tsym =>
    simp only [ieval, Except.ok.injEq, Prod.mk.injEq] at hrun
    refine ⟨1, loc, by simp [jeval], ?_, Agree.refl⟩
    rw [← hrun.1]
    simp [relB]
  | var n =>
    simp only [ieval] at hrun
    cases hc : chainA env n with
    | none => rw [hc] at hrun; cases hrun
    | some w =>
      rw [hc] at hrun
      simp only [Except.ok.injEq, Prod.mk.injEq] at hrun
      obtain ⟨hv, -⟩ := hrun
      have h := hinv n w hc
      cases hp : pidx P n with
      | some i =>
        rw [hp] at h
        refine ⟨args.getD i 0, loc, by simp [jeval, hp], ?_, Agree.refl⟩
        rw [← hv, h]; simp [relB]
      | none =>
        rw [hp] at h
        obtain ⟨-, q, hq, hr⟩ := h
        refine ⟨q, loc, by simp [jeval, hp, hq], ?_, Agree.refl⟩
        rw [← hv]; exact hr
  | arith op a b =>
    simp only [scopeOk, Bool.and_eq_true] at hscope
    obtain ⟨hsa, hsb⟩ := hscope
    simp only [ieval] at hrun
    cases ha : ieval f a env with
    | error e1 => rw [ha] at hrun; cases hrun
    | ok pa =>
      obtain ⟨va, ba⟩ := pa
      rw [ha] at hrun
      cases hb : ieval f b env with
      | error e1 => rw [hb] at hrun; cases hrun
      | ok pb =>
        obtain ⟨vb, bb⟩ := pb
        rw [hb] at hrun
        cases va with
        | num qa =>
          cases vb with
          | num qb =>
            replace hrun :
                (match aopI op qa qb with
                  | .error e1 => (.error e1 : Except String (IVal × Bool))
                  | .ok r => .ok (.num r, ba && bb)) = .ok (v, true) := hrun
            cases hop : aopI op qa qb with
            | error e1 => rw [hop] at hrun; cases hrun
            | ok r =>
              rw [hop] at hrun
              simp only [Except.ok.injEq, Prod.mk.injEq, Bool.and_eq_true] at hrun
              obtain ⟨hv, hba, hbb⟩ := hrun
              rw [hba] at ha
              rw [hbb] at hb
              obtain ⟨q1, l1, hj1, hr1, hag1⟩ :=
                ihE a P args S env loc _ hsa hinv ha
              have hq1 : qa = q1 := by simpa [relB] using hr1
              rw [← hq1] at hj1
              obtain ⟨q2, l2, hj2, hr2, hag2⟩ :=
                ihE b P args S env l1 _ hsb (hinv.of_agree hag1) hb
              have hq2 : qb = q2 := by simpa [relB] using hr2
              rw [← hq2] at hj2
              refine ⟨r, l2, ?_, ?_, hag2.trans hag1⟩
              · simp only [jeval, hj1, hj2]
                rw [aop_agree hop]
              · rw [← hv]; simp [relB]
          | nil => cases hrun
          | tsym => cases hrun
        | nil => cases hrun
        | tsym => cases hrun
  | cmp op a b =>
    simp only [scopeOk, Bool.and_eq_true] at hscope
    obtain ⟨hsa, hsb⟩ := hscope
    simp only [ieval] at hrun
    cases ha : ieval f a env with
    | error e1 => rw [ha] at hrun; cases hrun
    | ok pa =>
      obtain ⟨va, ba⟩ := pa
      rw [ha] at hrun
      cases hb : ieval f b env with
      | error e1 => rw [hb] at hrun; cases hrun
      | ok pb =>
        obtain ⟨vb, bb⟩ := pb
        rw [hb] at hrun
        cases va with
        | num qa =>
          cases vb with
          | num qb =>
            replace hrun :
                (Except.ok (if copB op qa qb then IVal.tsym else IVal.nil, ba && bb) :
                  Except String (IVal × Bool)) = .ok (v, true) := hrun
            simp only [Except.ok.injEq, Prod.mk.injEq, Bool.and_eq_true] at hrun
            obtain ⟨hv, hba, hbb⟩ := hrun
            rw [hba] at ha
            rw [hbb] at hb
            obtain ⟨q1, l1, hj1, hr1, hag1⟩ :=
              ihE a P args S env loc _ hsa hinv ha
            have hq1 : qa = q1 := by simpa [relB] using hr1
            rw [← hq1] at hj1
            obtain ⟨q2, l2, hj2, hr2, hag2⟩ :=
              ihE b P args S env l1 _ hsb (hinv.of_agree hag1) hb
            have hq2 : qb = q2 := by simpa [relB] using hr2
            rw [← hq2] at hj2
            refine ⟨if copB op qa qb then 1 else 0, l2, ?_, ?_, hag2.trans hag1⟩
            · simp only [jeval, hj1, hj2]
              simp [copJ]
            · rw [← hv]; exact cmp_rel _
          | nil => cases hrun
          | tsym => cases hrun
        | nil => cases hrun
        | tsym => cases hrun
  | cnd cls =>
    simp only [scopeOk] at hscope
    simp only [ieval] at hrun
    obtain ⟨q, l2, hj, hr, hag⟩ := ihC cls P args S env loc v hscope hinv hrun
    exact ⟨q, l2, by simp [jeval, hj], hr, hag⟩
  | whl t body =>
    simp only [scopeOk, Bool.and_eq_true] at hscope
    simp only [ieval] at hrun
    obtain ⟨q, l2, hj, hr, hag⟩ :=
      ihW t body P args S env loc .nil true 0 v hscope.1 hscope.2 hinv
        (by simp [relB]) hrun
    exact ⟨q, l2, by simp [jeval, hj], hr, hag⟩
  | lett binds body =>
    simp only [scopeOk, Bool.and_eq_true] at hscope
    obtain ⟨hsb, hsbody⟩ := hscope
    simp only [ieval] at hrun
    cases hbinds : ibinds f binds [] env with
    | error e1 => rw [hbinds] at hrun; cases hrun
    | ok pfr =>
      obtain ⟨fr, bf⟩ := pfr
      rw [hbinds] at hrun
      replace hrun :
          (match idolist f body (fr :: env) with
            | .error e1 => (.error e1 : Except String (IVal × Bool))
            | .ok (v1, bb) => .ok (v1, bf && bb)) = .ok (v, true) := hrun
      cases hbody : idolist f body (fr :: env) with
      | error e1 => rw [hbody] at hrun; cases hrun
      | ok pv =>
        obtain ⟨v1, bb⟩ := pv
        rw [hbody] at hrun
        replace hrun :
            (Except.ok (v1, bf && bb) : Except String (IVal × Bool))
              = .ok (v, true) := hrun
        simp only [Except.ok.injEq, Prod.mk.injEq, Bool.and_eq_true] at hrun
        obtain ⟨hv, hbf, hbb⟩ := hrun
        rw [hbf] at hbinds
        rw [hbb] at hbody
        have hinv0 : Inv P args S ([] :: env) loc := by
          intro n w hn
          rw [chainA_nil_frame] at hn
          exact hinv n w hn
        obtain ⟨l1, hj1, hinv1, hag1⟩ :=
          ihB binds P args S env loc [] fr hsb hinv0 hbinds
        obtain ⟨q, l2, hj2, hr, hag2⟩ :=
          ihL body P args (extScope binds S) (fr :: env) l1 v1 hsbody hinv1 hbody
        refine ⟨q, l2, by simp [jeval, hj1, hj2], by rw [← hv]; exact hr, ?_⟩
        refine Agree.trans ?_ hag1
        exact hag2.mono (fun m hm => extScope_contains binds S m hm)
end Jit
end VdLisp

namespace VdLisp
namespace Jit

theorem stepL (f : Nat) (ihE : StmtE f) (ihL : StmtL f) : StmtL (f + 1) := by
  intro es P args S env loc v hscope hinv hrun
  cases es with
  | nil =>
    simp only [idolist, Except.ok.injEq, Prod.mk.injEq] at hrun
    refine ⟨0, loc, by simp [jdolist], ?_, Agree.refl⟩
    rw [← hrun.1]; simp [relB]
  | cons e rest =>
    simp only [scopeOkL, Bool.and_eq_true] at hscope
    obtain ⟨hse, hsrest⟩ := hscope
    simp only [idolist] at hrun
    cases he : ieval f e env with
    | error e1 => rw [he] at hrun; cases hrun
    | ok pv =>
      obtain ⟨v1, bv⟩ := pv
      rw [he] at hrun
      cases rest with
      | nil =>
        replace hrun :
            (Except.ok (v1, bv) : Except String (IVal × Bool)) = .ok (v, true) := hrun
        simp only [Except.ok.injEq, Prod.mk.injEq] at hrun
        obtain ⟨hv, hbv⟩ := hrun
        rw [hbv] at he
        obtain ⟨q, l1, hj, hr, hag⟩ := ihE e P args S env loc v1 hse hinv he
        refine ⟨q, l1, by simp [jdolist, hj], ?_, hag⟩
        rw [← hv]; exact hr
      | cons e2 rest2 =>
        replace hrun :
            (match idolist f (e2 :: rest2) env with
              | .error e1 => (.error e1 : Except String (IVal × Bool))
              | .ok (r, br) => .ok (r, bv && br)) = .ok (v, true) := hrun
        cases hrest : idolist f (e2 :: rest2) env with
        | error e1 => rw [hrest] at hrun; cases hrun
        | ok pr =>
          obtain ⟨r, br⟩ := pr
          rw [hrest] at hrun
          simp only [Except.ok.injEq, Prod.mk.injEq, Bool.and_eq_true] at hrun
          obtain ⟨hv, hbv, hbr⟩ := hrun
          rw [hbv] at he
          rw [hbr] at hrest
          obtain ⟨q1, l1, hj1, hr1, hag1⟩ := ihE e P args S env loc v1 hse hinv he
          obtain ⟨q2, l2, hj2, hr2, hag2⟩ :=
            ihL (e2 :: rest2) P args S env l1 r hsrest (hinv.of_agree hag1) hrest
          refine ⟨q2, l2, by simp [jdolist, hj1, hj2], ?_, hag2.trans hag1⟩
          rw [← hv]; exact hr2

theorem stepC (f : Nat) (ihE : StmtE f) (ihL : StmtL f) (ihC : StmtC f) :
    StmtC (f + 1) := by
  intro cls P args S env loc v hscope hinv hrun
  cases cls with
  | nil =>
    simp only [icond, Except.ok.injEq, Prod.mk.injEq] at hrun
    refine ⟨0, loc, by simp [jcond], ?_, Agree.refl⟩
    rw [← hrun.1]; simp [relB]
  | cons cl rest =>
    obtain ⟨t, b⟩ := cl
    simp only [scopeOkC, Bool.and_eq_true] at hscope
    obtain ⟨⟨hst, hsb⟩, hsrest⟩ := hscope
    simp only [icond] at hrun
    cases ht : ieval f t env with
    | error e1 => rw [ht] at hrun; cases hrun
    | ok pt =>
      obtain ⟨tv, bt⟩ := pt
      rw [ht] at hrun
      replace hrun :
          (if truthyI tv then
            match idolist f b env with
            | .error e1 => (.error e1 : Except String (IVal × Bool))
            | .ok (v1, bb) => .ok (v1, bt && consistT tv && bb)
          else
            match icond f rest env with
            | .error e1 => (.error e1 : Except String (IVal × Bool))
            | .ok (v1, bb) => .ok (v1, bt && consistT tv && bb)) = .ok (v, true) := hrun
      by_cases htv : truthyI tv = true
      · rw [if_pos htv] at hrun
        cases hb2 : idolist f b env with
        | error e1 => rw [hb2] at hrun; cases hrun
        | ok pv =>
          obtain ⟨v1, bb⟩ := pv
          rw [hb2] at hrun
          simp only [Except.ok.injEq, Prod.mk.injEq, Bool.and_eq_true] at hrun
          obtain ⟨hv, ⟨hbt, hcon⟩, hbb⟩ := hrun
          rw [hbt] at ht
          rw [hbb] at hb2
          obtain ⟨qt, l1, hjt, hrt, hag1⟩ := ihE t P args S env loc tv hst hinv ht
          have hjtv : jtruthy (some qt) = true := by
            rw [← truthy_agree hrt hcon]; exact htv
          obtain ⟨q2, l2, hj2, hr2, hag2⟩ :=
            ihL b P args S env l1 v1 hsb (hinv.of_agree hag1) hb2
          refine ⟨q2, l2, by simp [jcond, hjt, hjtv, hj2], ?_, hag2.trans hag1⟩
          rw [← hv]; exact hr2
      · rw [if_neg htv] at hrun
        cases hrest : icond f rest env with
        | error e1 => rw [hrest] at hrun; cases hrun
        | ok pv =>
          obtain ⟨v1, bb⟩ := pv
          rw [hrest] at hrun
          simp only [Except.ok.injEq, Prod.mk.injEq, Bool.and_eq_true] at hrun
          obtain ⟨hv, ⟨hbt, hcon⟩, hbb⟩ := hrun
          rw [hbt] at ht
          rw [hbb] at hrest
          obtain ⟨qt, l1, hjt, hrt, hag1⟩ := ihE t P args S env loc tv hst hinv ht
          have hjtv : jtruthy (some qt) = false := by
            rw [← truthy_agree hrt hcon]
            exact Bool.eq_false_iff.mpr htv
          obtain ⟨q2, l2, hj2, hr2, hag2⟩ :=
            ihC rest P args S env l1 v1 hsrest (hinv.of_agree hag1) hrest
          refine ⟨q2, l2, by simp [jcond, hjt, hjtv, hj2], ?_, hag2.trans hag1⟩
          rw [← hv]; exact hr2

/-- A while loop that finishes with a true flag started with a true
flag. -/
theorem iwhile_flag_true : ∀ (f : Nat) (t : JExpr) (body : List JExpr)
    (env : List (List (String × IVal))) (res : IVal) (flg : Bool) (v : IVal),
    iwhile f t body env res flg = .ok (v, true) → flg = true := by
  intro f
  induction f with
  | zero =>
    intro t body env res flg v h
    simp [iwhile] at h
  | succ f ih =>
    intro t body env res flg v h
    simp only [iwhile] at h
    cases ht : ieval f t env with
    | error e1 => rw [ht] at h; cases h
    | ok pt =>
      obtain ⟨tv, bt⟩ := pt
      rw [ht] at h
      replace h :
          (if truthyI tv then
            match idolist f body env with
            | .error e1 => (.error e1 : Except String (IVal × Bool))
            | .ok (r, br) => iwhile f t body env r (flg && bt && consistT tv && br)
          else .ok (res, flg && bt && consistT tv)) = .ok (v, true) := h
      by_cases htv : truthyI tv = true
      · rw [if_pos htv] at h
        cases hb : idolist f body env with
        | error e1 => rw [hb] at h; cases h
        | ok pr =>
          obtain ⟨r, br⟩ := pr
          rw [hb] at h
          have h2 := ih t body env r (flg && bt && consistT tv && br) v h
          simp only [Bool.and_eq_true] at h2
          exact h2.1.1.1
      · rw [if_neg htv] at h
        simp only [Except.ok.injEq, Prod.mk.injEq, Bool.and_eq_true] at h
        exact h.2.1.1

theorem stepW (f : Nat) (ihE : StmtE f) (ihL : StmtL f) (ihW : StmtW f) :
    StmtW (f + 1) := by
  intro t body P args S env loc res flg acc v hst hsb hinv hacc hrun
  simp only [iwhile] at hrun
  cases ht : ieval f t env with
  | error e1 => rw [ht] at hrun; cases hrun
  | ok pt =>
    obtain ⟨tv, bt⟩ := pt
    rw [ht] at hrun
    replace hrun :
        (if truthyI tv then
          match idolist f body env with
          | .error e1 => (.error e1 : Except String (IVal × Bool))
          | .ok (r, br) => iwhile f t body env r (flg && bt && consistT tv && br)
        else .ok (res, flg && bt && consistT tv)) = .ok (v, true) := hrun
    by_cases htv : truthyI tv = true
    · rw [if_pos htv] at hrun
      cases hb : idolist f body env with
      | error e1 => rw [hb] at hrun; cases hrun
      | ok pr =>
        obtain ⟨r, br⟩ := pr
        rw [hb] at hrun
        have hfl := iwhile_flag_true f t body env r
          (flg && bt && consistT tv && br) v hrun
        simp only [Bool.and_eq_true] at hfl
        obtain ⟨⟨⟨-, hbt⟩, hcon⟩, hbr⟩ := hfl
        rw [hbt] at ht
        rw [hbr] at hb
        obtain ⟨qt, l1, hjt, hrt, hag1⟩ := ihE t P args S env loc tv hst hinv ht
        have hjtv : jtruthy (some qt) = true := by
          rw [← truthy_agree hrt hcon]; exact htv
        obtain ⟨qr, l2, hjb, hrb, hag2⟩ :=
          ihL body P args S env l1 r hsb (hinv.of_agree hag1) hb
        obtain ⟨q3, l3, hjw, hrw, hag3⟩ :=
          ihW t body P args S env l2 r (flg && bt && consistT tv && br) qr v
            hst hsb ((hinv.of_agree hag1).of_agree hag2) hrb hrun
        refine ⟨q3, l3, ?_, hrw, (hag3.trans hag2).trans hag1⟩
        simp [jwhile, hjt, hjtv, hjb, hjw]
    · rw [if_neg htv] at hrun
      simp only [Except.ok.injEq, Prod.mk.injEq, Bool.and_eq_true] at hrun
      obtain ⟨hv, ⟨-, hbt⟩, hcon⟩ := hrun
      rw [hbt] at ht
      obtain ⟨qt, l1, hjt, hrt, hag1⟩ := ihE t P args S env loc tv hst hinv ht
      have hjtv : jtruthy (some qt) = false := by
        rw [← truthy_agree hrt hcon]
        exact Bool.eq_false_iff.mpr htv
      refine ⟨acc, l1, by simp [jwhile, hjt, hjtv], ?_, hag1⟩
      rw [← hv]; exact hacc

theorem stepB (f : Nat) (ihE : StmtE f) (ihB : StmtB f) : StmtB (f + 1) := by
  intro binds P args S env loc frame fr hscope hinv hrun
  cases binds with
  | nil =>
    simp only [ibinds, Except.ok.injEq, Prod.mk.injEq] at hrun
    obtain ⟨hfr, -⟩ := hrun
    refine ⟨loc, by simp [jbinds], ?_, Agree.refl⟩
    rw [← hfr]
    exact hinv
  | cons bd rest =>
    obtain ⟨n, e⟩ := bd
    simp only [scopeOkB, Bool.and_eq_true] at hscope
    obtain ⟨⟨⟨hse, hnp⟩, hns⟩, hsrest⟩ := hscope
    simp only [ibinds] at hrun
    cases he : ieval f e (frame :: env) with
    | error e1 => rw [he] at hrun; cases hrun
    | ok pv =>
      obtain ⟨v1, bv⟩ := pv
      rw [he] at hrun
      replace hrun :
          (match ibinds f rest (insertA n v1 frame) env with
            | .error e1 => (.error e1 : Except String (List (String × IVal) × Bool))
            | .ok (fr2, br) => .ok (fr2, bv && br)) = .ok (fr, true) := hrun
      cases hrest : ibinds f rest (insertA n v1 frame) env with
      | error e1 => rw [hrest] at hrun; cases hrun
      | ok pr =>
        obtain ⟨fr2, br⟩ := pr
        rw [hrest] at hrun
        simp only [Except.ok.injEq, Prod.mk.injEq, Bool.and_eq_true] at hrun
        obtain ⟨hfr, hbv, hbr⟩ := hrun
        rw [hbv] at he
        rw [hbr] at hrest
        obtain ⟨q1, l1, hj1, hr1, hag1⟩ :=
          ihE e P args S (frame :: env) loc v1 hse hinv he
        have hnS : S.contains n = false := by
          revert hns; cases S.contains n <;> simp
        have hnP : P.contains n = false := by
          revert hnp; cases P.contains n <;> simp
        have hinv1 : Inv P args (n :: S) (insertA n v1 frame :: env)
            (insertA n (some q1) l1) := by
          intro m w hw
          by_cases hmn : n = m
          · subst hmn
            have hself : lookupA (insertA n v1 frame) n = some v1 :=
              lookupA_insertA_self n v1 frame
            have hw2 : w = v1 := by
              simp only [chainA, hself] at hw
              cases hw; rfl
            rw [pidx_eq_none hnP]
            refine ⟨by simp, q1, lookupA_insertA_self n (some q1) l1, ?_⟩
            rw [hw2]; exact hr1
          · have hch : chainA (insertA n v1 frame :: env) m
                = chainA (frame :: env) m := by
              simp only [chainA, lookupA_insertA_ne n m v1 hmn]
            rw [hch] at hw
            have h := (hinv.of_agree hag1) m w hw
            cases hp : pidx P m with
            | some i => rw [hp] at h; exact h
            | none =>
              rw [hp] at h
              obtain ⟨hS, q, hq, hr⟩ := h
              refine ⟨?_, q, ?_, hr⟩
              · simp only [List.contains_cons, Bool.or_eq_true]
                exact Or.inr (by simpa using hS)
              · rw [lookupA_insertA_ne n m (some q1) hmn]
                exact hq
        obtain ⟨l2, hj2, hinv2, hag2⟩ :=
          ihB rest P args (n :: S) env (insertA n (some q1) l1)
            (insertA n v1 frame) fr2 hsrest hinv1 hrest
        refine ⟨l2, by simp [jbinds, hj1, hj2], ?_, ?_⟩
        · rw [hfr] at hinv2
          exact hinv2
        · intro m hm
          have hmn : ¬ n = m := by
            intro he2
            rw [← he2] at hm
            rw [hm] at hnS
            cases hnS
          have h2 := hag2 m (by
            simp only [List.contains_cons, Bool.or_eq_true]
            exact Or.inr (by simpa using hm))
          rw [h2, lookupA_insertA_ne n m (some q1) hmn]
          exact hag1 m hm

end Jit
end VdLisp

namespace VdLisp
namespace Jit

/-- The simulation, at every fuel. -/
theorem simAll : ∀ f : Nat, StmtE f ∧ StmtL f ∧ StmtC f ∧ StmtW f ∧ StmtB f := by
  intro f
  induction f with
  | zero =>
    refine ⟨?_, ?_, ?_, ?_, ?_⟩
    · intro e P args S env loc v _ _ h; simp [ieval] at h
    · intro es P args S env loc v _ _ h; simp [idolist] at h
    · intro cls P args S env loc v _ _ h; simp [icond] at h
    · intro t body P args S env loc res flg acc v _ _ _ _ h; simp [iwhile] at h
    · intro binds P args S env loc frame fr _ _ h; simp [ibinds] at h
  | succ f ih =>
    obtain ⟨hE, hL, hC, hW, hB⟩ := ih
    exact ⟨stepE f hE hL hC hW hB hL, stepL f hE hL, stepC f hE hL hC,
      stepW f hE hL hW, stepB f hE hB⟩

/-- C1 (counterexample): for the body `(cond (x 1) (#t 2))` of a
one-parameter function called with the numeric actual 0, the interpreter
takes the first clause (the number 0 is truthy, since only nil is falsy)
and produces 1, while the emitted code's `FCmpONE x, 0.0` test fails and
the fall-through `#t` clause produces 2 — a numeric result of 2 that the
native caller wraps with `make_number`.  The two modes disagree at the
test value 0. -/
theorem jit_cond_zero_test_diverges :
    ieval 9 (.cnd [(.var "x", [.num 1]), (.tsym, [.num 2])]) [zipFrame ["x"] [0]]
      = .ok (.num 1, false) ∧
    jeval 9 (.cnd [(.var "x", [.num 1]), (.tsym, [.num 2])]) ["x"] [0] []
      = .ok (some 2, []) ∧
    (1 : ℚ) ≠ 2 := by
  refine ⟨?_, ?_, by norm_num⟩ <;> rfl

/-- C1 (amended): for a user function whose body lies in the embedded
lowering-supported core (numeric and `#t` literals, parameter and
let-local references under the hygiene discipline of `scopeOk`,
arithmetic, comparisons, `cond`, `while`, `let`), called on all-numeric
actuals, if interpreted evaluation of the body yields a number and every
`cond`/`while` test value evaluated along the way is branch-consistent
(never the number 0 — the instrumentation flag), then native-compiled
evaluation yields the same number. -/
theorem jit_interp_equiv (f : Nat) (P : List String) (args : List ℚ)
    (body : List JExpr) (q0 : ℚ)
    (hnd : P.Nodup)
    (hscope : scopeOkL P [] body = true)
    (hrun : idolist f body [zipFrame P args] = .ok (.num q0, true)) :
    ∃ loc2, jdolist f body P args [] = .ok (some q0, loc2) := by
  obtain ⟨q, loc2, hj, hr, -⟩ :=
    (simAll f).2.1 body P args [] [zipFrame P args] [] (.num q0) hscope
      (Inv_entry P args) hrun
  have : q0 = q := by simpa [relB] using hr
  exact ⟨loc2, by rw [this]; exact hj⟩

/-- Witness for `jit_interp_equiv`: the body
`(cond ((< x 10) x) (#t 0))` of a one-parameter function at the numeric
actual 5 evaluates to 5 in both modes. -/
theorem jit_interp_equiv_witness :
    ∃ loc2, jdolist 9
      [.cnd [(.cmp .lt (.var "x") (.num 10), [.var "x"]),
             (.tsym, [.num 0])]]
      ["x"] [5] [] = .ok (some 5, loc2) :=
  jit_interp_equiv 9 ["x"] [5]
    [.cnd [(.cmp .lt (.var "x") (.num 10), [.var "x"]),
           (.tsym, [.num 0])]]
    5 (by simp) (by rfl) (by rfl)

end Jit
end VdLisp
